import Mathlib

/-!
Shallow embedding of the quickjs-rs safety layer (src/value.rs, src/array.rs,
src/runtime.rs) and of the scripting engine it wraps, the latter taken at the
interface boundary the specification describes.  The engine itself is an
external collaborator of the repository, so every engine entry point below is
modelled from the specification and carries a doc comment saying so; all
definitions in the host layer are translated directly from the Rust source.
-/

set_option autoImplicit false

deriving instance DecidableEq for Except

namespace QuickJS

/-- Tags of the engine tagged union (spec section 3): integer, float, boolean,
string, object, array, function, exception sentinel, undefined, null. -/
inductive JSTag where
  | int
  | float64
  | bool
  | string
  | object
  | array
  | function
  | exception
  | undefined
  | null
deriving DecidableEq

/-- Pointer-backed (reference counted) tags per the spec data model: string,
object, array, function. -/
def JSTag.refCounted : JSTag → Bool
  | .string => true
  | .object => true
  | .array => true
  | .function => true
  | _ => false

/-- Modelled from the spec: the engine IEEE-double payload at the interface
boundary.  `bits b` is the double whose raw 64-bit pattern is `b`; `ofInt i`
is the double produced by the engine coercion of an integer payload
(`JS_ToFloat64` applied to an int-tagged value).  The coercion is kept
uninterpreted because the spec constrains only bit-for-bit storage round trips
and the NaN test, never double arithmetic. -/
inductive F64 where
  | bits (b : Nat)
  | ofInt (i : Int)
deriving DecidableEq

/-- Modelled from the spec: the NaN test on a double, decided on the raw bit
pattern (exponent field all ones and mantissa nonzero); a double obtained by
coercing an integer is never NaN. -/
def F64.isNan : F64 → Bool
  | .bits b => (b >>> 52) % 2048 == 2047 && b % 4503599627370496 != 0
  | .ofInt _ => false

/-- The raw bit pattern of positive infinity. -/
def f64PosInf : F64 := .bits (2047 <<< 52)

/-- The raw bit pattern of negative infinity. -/
def f64NegInf : F64 := .bits (4095 <<< 52)

/-- The payload union of a tagged engine value: an inline scalar or an opaque
pointer (modelled as a heap address) to a reference counted block. -/
inductive JSPayload where
  | int (i : Int)
  | float (f : F64)
  | bool (b : Bool)
  | ptr (a : Nat)
  | scalarZero
deriving DecidableEq

/-- One engine value: a tag plus a payload, mirroring the C `JSValue`. -/
structure JSValue where
  tag : JSTag
  u : JSPayload
deriving DecidableEq

/-- The `undefined` scalar value (`Helper_JS_NewUndefined`). -/
def jsUndefined : JSValue := ⟨.undefined, .scalarZero⟩

/-- The `null` scalar value (`Helper_JS_NewNull`). -/
def jsNull : JSValue := ⟨.null, .scalarZero⟩

/-- The bare exception-sentinel value (`Helper_JS_NewException`). -/
def jsException : JSValue := ⟨.exception, .scalarZero⟩

/-- Modelled from the spec: the content of one reference counted heap block
owned by the engine. -/
inductive HeapBlock where
  | str (s : String)
  | arr (elems : List JSValue)
  | obj (props : List (String × JSValue))
deriving DecidableEq

/-- A heap block together with its native reference count. -/
structure HeapEntry where
  refc : Nat
  data : HeapBlock
deriving DecidableEq

/-- One host-to-engine call, recorded so that theorems can speak about which
engine entry points a piece of host code invokes and in which order. -/
inductive EngineOp where
  | dupValueCall (v : JSValue)
  | freeValueCall (v : JSValue)
  | hostDealloc (a : Nat)
  | evalCall (src : String) (flags : Nat)
  | getExceptionCall
  | newStringCall (s : String)
  | newArrayCall
  | newAtomCall (s : String)
  | getPropAtomCall (v : JSValue) (atom : String)
  | setPropU32Call (v : JSValue) (idx : Nat)
  | getPropU32Call (v : JSValue) (idx : Nat)
  | toInt64Call (v : JSValue)
  | toFloat64Call (v : JSValue)
  | toBoolCall (v : JSValue)
  | toCStringCall (v : JSValue)
deriving DecidableEq

/-- Modelled from the spec: the engine-global state reachable through one
context — the reference counted heap, a fresh-address counter, the singular
pending-exception slot, and the log of engine calls made so far. -/
structure Engine where
  blocks : List (Nat × HeapEntry)
  nextAddr : Nat
  pending : Option JSValue
  trace : List EngineOp
deriving DecidableEq

/-- Key lookup in the block list. -/
def assocFind : List (Nat × HeapEntry) → Nat → Option HeapEntry
  | [], _ => none
  | p :: rest, a => if p.1 = a then some p.2 else assocFind rest a

/-- Update (or remove, when `f` returns `none`) the entry at a key. -/
def assocUpdate (l : List (Nat × HeapEntry)) (a : Nat)
    (f : HeapEntry → Option HeapEntry) : List (Nat × HeapEntry) :=
  match l with
  | [] => []
  | p :: rest =>
    if p.1 = a then
      match f p.2 with
      | some e => (p.1, e) :: rest
      | none => rest
    else p :: assocUpdate rest a f

/-- The heap entry at an address. -/
def Engine.findBlock (st : Engine) (a : Nat) : Option HeapEntry :=
  assocFind st.blocks a

/-- The reference count of the block at an address. -/
def Engine.refcAt (st : Engine) (a : Nat) : Option Nat :=
  (st.findBlock a).map HeapEntry.refc

/-- The data of the block at an address. -/
def Engine.dataAt (st : Engine) (a : Nat) : Option HeapBlock :=
  (st.findBlock a).map HeapEntry.data

/-- Record one host-to-engine call. -/
def Engine.log (st : Engine) (op : EngineOp) : Engine :=
  { st with trace := st.trace ++ [op] }

/-- Modelled from the spec: the reference-count increment the engine performs
when a pointer-backed value is duplicated; scalar payloads are untouched. -/
def Engine.dupRef (st : Engine) (v : JSValue) : Engine :=
  if v.tag.refCounted then
    match v.u with
    | .ptr a =>
      { st with blocks := assocUpdate st.blocks a (fun e => some ⟨e.refc + 1, e.data⟩) }
    | _ => st
  else st

/-- Modelled from the spec: the reference-count decrement the engine performs
when a pointer-backed value is released; at count zero the block is freed by
the engine itself (removed from the heap).  Scalar payloads are untouched. -/
def Engine.decRef (st : Engine) (v : JSValue) : Engine :=
  if v.tag.refCounted then
    match v.u with
    | .ptr a =>
      { st with blocks := (assocUpdate st.blocks a
          (fun e => if e.refc ≤ 1 then none else some ⟨e.refc - 1, e.data⟩)) }
    | _ => st
  else st

/-- Modelled from the spec: `Helper_JS_DupValue` — one engine call that
increments the native count of a pointer-backed value and hands the same
tagged value back. -/
def Engine.dupValue (st : Engine) (v : JSValue) : Engine × JSValue :=
  ((st.log (.dupValueCall v)).dupRef v, v)

/-- Modelled from the spec: `Helper_JS_FreeValue` — one engine call that
decrements the native count of a pointer-backed value and, at zero, releases
the block through the engine free routine. -/
def Engine.freeValue (st : Engine) (v : JSValue) : Engine :=
  (st.log (.freeValueCall v)).decRef v

/-- Modelled from the spec: an engine operation that fails stores a freshly
allocated error object in the pending-exception slot and returns the
exception sentinel. -/
def Engine.throwError (st : Engine) : Engine × JSValue :=
  ({ st with blocks := st.blocks ++ [(st.nextAddr, ⟨1, .obj []⟩)],
             nextAddr := st.nextAddr + 1,
             pending := some ⟨.object, .ptr st.nextAddr⟩ }, jsException)

/-- Modelled from the spec: `JS_NewStringLen` allocates a fresh engine string
block with the given content and returns a string-tagged value holding the
one counted reference. -/
def Engine.newStringLen (st : Engine) (s : String) : Engine × JSValue :=
  let st1 := st.log (.newStringCall s)
  ({ st1 with blocks := st1.blocks ++ [(st1.nextAddr, ⟨1, .str s⟩)],
              nextAddr := st1.nextAddr + 1 }, ⟨.string, .ptr st1.nextAddr⟩)

/-- Modelled from the spec: `JS_NewArray` allocates a fresh empty array block
and returns an array-tagged value holding the one counted reference. -/
def Engine.newArray (st : Engine) : Engine × JSValue :=
  let st1 := st.log .newArrayCall
  ({ st1 with blocks := st1.blocks ++ [(st1.nextAddr, ⟨1, .arr []⟩)],
              nextAddr := st1.nextAddr + 1 }, ⟨.array, .ptr st1.nextAddr⟩)

/-- Modelled from the spec: `JS_NewAtom` interns a property name; the atom is
modelled by the name itself. -/
def Engine.newAtom (st : Engine) (s : String) : Engine × String :=
  (st.log (.newAtomCall s), s)

/-- Modelled from the spec: `JS_GetPropertyUint32` — indexed lookup.  On an
array block an index below the length yields a fresh reference to the element
and an index at or beyond the length yields `undefined` (a defined engine
behavior, not a fault); a lookup through a payload that is not a live object
raises an engine exception. -/
def Engine.getPropU32 (st : Engine) (v : JSValue) (idx : Nat) : Engine × JSValue :=
  let st1 := st.log (.getPropU32Call v idx)
  match v.u with
  | .ptr a =>
    match st1.findBlock a with
    | some ⟨_, .arr elems⟩ =>
      match elems.get? idx with
      | some e => (st1.dupRef e, e)
      | none => (st1, jsUndefined)
    | some ⟨_, .obj _⟩ => (st1, jsUndefined)
    | some ⟨_, .str _⟩ => (st1, jsUndefined)
    | none => st1.throwError
  | _ => st1.throwError

/-- The element list after an indexed store: in-range indices overwrite, an
index beyond the end pads with `undefined` and appends. -/
def listSet (elems : List JSValue) (idx : Nat) (x : JSValue) : List JSValue :=
  if idx < elems.length then elems.set idx x
  else elems ++ List.replicate (idx - elems.length) jsUndefined ++ [x]

/-- Modelled from the spec: `JS_SetPropertyUint32` — indexed store that
consumes the counted reference passed for the new element, releasing the
displaced element when one is overwritten; a store through a payload that is
not a live array consumes the reference and reports failure. -/
def Engine.setPropU32 (st : Engine) (v : JSValue) (idx : Nat) (x : JSValue) :
    Engine × Int :=
  let st1 := st.log (.setPropU32Call v idx)
  match v.u with
  | .ptr a =>
    match st1.findBlock a with
    | some ⟨_, .arr elems⟩ =>
      let st2 := match elems.get? idx with
        | some old => st1.decRef old
        | none => st1
      ({ st2 with blocks := (assocUpdate st2.blocks a
          (fun e => some ⟨e.refc, .arr (listSet elems idx x)⟩)) }, 0)
    | _ =>
      let p := st1.throwError
      (p.1.decRef x, -1)
  | _ =>
    let p := st1.throwError
    (p.1.decRef x, -1)

/-- Modelled from the spec: `JS_GetPropertyInternal` keyed by an atom; reading
the length atom of an array block yields its element count as an int-tagged
value, and object blocks answer keyed lookups. -/
def Engine.getPropAtom (st : Engine) (v : JSValue) (atom : String) : Engine × JSValue :=
  let st1 := st.log (.getPropAtomCall v atom)
  match v.u with
  | .ptr a =>
    match st1.findBlock a with
    | some ⟨_, .arr elems⟩ =>
      if atom = "length" then (st1, ⟨.int, .int elems.length⟩) else (st1, jsUndefined)
    | some ⟨_, .obj props⟩ =>
      match props.lookup atom with
      | some e => (st1.dupRef e, e)
      | none => (st1, jsUndefined)
    | some ⟨_, .str s⟩ =>
      if atom = "length" then (st1, ⟨.int, .int s.length⟩) else (st1, jsUndefined)
    | none => st1.throwError
  | _ => st1.throwError

/-- Modelled from the spec: `JS_ToInt64` on an int-tagged payload returns the
stored integer with status 0; the safety layer never passes it anything else. -/
def Engine.toInt64 (st : Engine) (v : JSValue) : Engine × Int × Int :=
  let st1 := st.log (.toInt64Call v)
  match v.u with
  | .int i => (st1, 0, i)
  | _ => (st1, 0, 0)

/-- Modelled from the spec: `JS_ToFloat64` returns a float payload unchanged
and coerces an int payload to the corresponding double, with status 0. -/
def Engine.toFloat64 (st : Engine) (v : JSValue) : Engine × Int × F64 :=
  let st1 := st.log (.toFloat64Call v)
  match v.u with
  | .float f => (st1, 0, f)
  | .int i => (st1, 0, .ofInt i)
  | _ => (st1, 0, .ofInt 0)

/-- Modelled from the spec: `JS_ToBool` on a boolean payload returns 1 or 0. -/
def Engine.toBool (st : Engine) (v : JSValue) : Engine × Int :=
  let st1 := st.log (.toBoolCall v)
  match v.u with
  | .bool b => (st1, if b then 1 else 0)
  | _ => (st1, 0)

/-- Modelled from the spec: `JS_ToCStringLen`, the canonical string-rendering
entry point; on a string block it yields the stored content (already valid
UTF-8 in the model, so the host substitution marker is never needed). -/
def Engine.toCString (st : Engine) (v : JSValue) : Engine × String :=
  let st1 := st.log (.toCStringCall v)
  match v.u with
  | .ptr a =>
    match st1.findBlock a with
    | some ⟨_, .str s⟩ => (st1, s)
    | _ => (st1, "")
  | .int i => (st1, toString i)
  | _ => (st1, "")

/-- Modelled from the spec: the observable outcome of one `JS_Eval` call —
either a result value, or the exception sentinel together with the error
object deposited in the pending slot. -/
inductive EvalOutcome where
  | success (v : JSValue)
  | failure (err : JSValue)
deriving DecidableEq

/-- Modelled from the spec: `JS_Eval` — runs the engine on the source text;
on failure the pending slot receives the error object and the exception
sentinel is returned. -/
def Engine.evalSrc (je : String → EvalOutcome) (st : Engine) (src : String)
    (flags : Nat) : Engine × JSValue :=
  let st1 := st.log (.evalCall src flags)
  match je src with
  | .success v => (st1, v)
  | .failure e => ({ st1 with pending := some e }, jsException)

/-- Modelled from the spec: `JS_GetException` — retrieve and clear the pending
exception object; with an empty slot the engine hands back `null`. -/
def Engine.getExc (st : Engine) : Engine × JSValue :=
  let st1 := st.log .getExceptionCall
  match st1.pending with
  | some e => ({ st1 with pending := none }, e)
  | none => (st1, jsNull)

/-- Well-formed engine heap: addresses are unique and below the fresh-address
counter. -/
def Engine.wf (st : Engine) : Prop :=
  (st.blocks.map Prod.fst).Nodup ∧ ∀ p ∈ st.blocks, p.1 < st.nextAddr

instance (st : Engine) : Decidable st.wf := by
  unfold Engine.wf; infer_instance

/-!
The host layer, translated from the Rust source.  `ContextPtr` is the dual
owning/borrowed context handle used by `Value.context` and by the trampoline
(`ContextPtr::Borrowed` in the `wrap_fn!` expansion); cloning either variant
is a host-side handle copy and performs no engine call.
-/

/-- The context handle (runtime.rs / the `wrap_fn!` expansion in value.rs):
either an owning counted handle or a borrowed raw pointer. -/
inductive ContextPtr where
  | owned (context : Nat)
  | borrowed (context : Nat)
deriving DecidableEq

/-- `ContextPtr::as_ptr`: the raw engine context pointer of either variant. -/
def ContextPtr.asPtr : ContextPtr → Nat
  | .owned c => c
  | .borrowed c => c

/-- `Context` (runtime.rs): an execution scope handle. -/
structure Context where
  ptr : ContextPtr
deriving DecidableEq

/-- `Value` (value.rs lines 13-16): a tagged engine value plus the handle of
the context it belongs to. -/
structure Value where
  value : JSValue
  context : ContextPtr
deriving DecidableEq

/-- `Value::is_exception` (value.rs lines 69-71). -/
def Value.isException (v : Value) : Bool := v.value.tag == .exception

/-- `Value::is_string` (value.rs lines 73-75). -/
def Value.isString (v : Value) : Bool := v.value.tag == .string

/-- `Value::is_integer` (value.rs lines 77-79). -/
def Value.isInteger (v : Value) : Bool := v.value.tag == .int

/-- `Value::is_boolean` (value.rs lines 81-83). -/
def Value.isBoolean (v : Value) : Bool := v.value.tag == .bool

/-- `Value::is_number` (value.rs lines 85-87): `JS_IsNumber`, true for the
int tag and for the float tag. -/
def Value.isNumber (v : Value) : Bool :=
  v.value.tag == .int || v.value.tag == .float64

/-- `Value::is_undefined` (value.rs lines 89-91). -/
def Value.isUndefined (v : Value) : Bool := v.value.tag == .undefined

/-- `Value::is_null` (value.rs lines 93-95). -/
def Value.isNull (v : Value) : Bool := v.value.tag == .null

/-- `impl Drop for Value` (value.rs lines 18-22): the destructor hands the
payload to `Helper_JS_FreeValue`, one engine call. -/
def Value.drop (st : Engine) (v : Value) : Engine :=
  st.freeValue v.value

/-- `impl Clone for Value` (value.rs lines 59-66): duplicate the payload
through `Helper_JS_DupValue` and copy the context handle (a host-side copy,
no engine call). -/
def Value.clone (st : Engine) (v : Value) : Engine × Value :=
  let p := st.dupValue v.value
  (p.1, ⟨p.2, v.context⟩)

/-- `impl PartialEq for Value` (value.rs lines 49-55).  Note that the third
conjunct of the source compares the left operand payload with itself
(`self.value.u.ptr == self.value.u.ptr`), which the embedding reproduces
literally. -/
def Value.eq (self other : Value) : Bool :=
  self.context.asPtr == other.context.asPtr
    && self.value.tag == other.value.tag
    && (self.value.u == self.value.u)

/-- The equality relation the specification describes, stated from the words
of the claim for comparison with `Value.eq`: same context, same tag, and for
pointer-backed tags the same heap block. -/
def specValueEq (a b : Value) : Bool :=
  a.context.asPtr == b.context.asPtr
    && a.value.tag == b.value.tag
    && (!a.value.tag.refCounted || a.value.u == b.value.u)

/-- `Value::as_string` (value.rs lines 97-103): guarded by the string tag,
then rendered through the canonical engine path (the Debug impl at value.rs
lines 24-41, which calls `JS_ToCStringLen`). -/
def Value.asString (st : Engine) (v : Value) : Engine × Option String :=
  if v.isString then
    let p := st.toCString v.value
    (p.1, some p.2)
  else (st, none)

/-- `Value::as_integer` (value.rs lines 105-120): guarded by the int tag,
then `JS_ToInt64`; a nonzero status yields `None`. -/
def Value.asInteger (st : Engine) (v : Value) : Engine × Option Int :=
  if v.isInteger then
    let p := st.toInt64 v.value
    if p.2.1 = 0 then (p.1, some p.2.2) else (p.1, none)
  else (st, none)

/-- `Value::as_float` (value.rs lines 122-137): guarded by `is_number` (int
or float tag), then `JS_ToFloat64`; a nonzero status yields `None`. -/
def Value.asFloat (st : Engine) (v : Value) : Engine × Option F64 :=
  if v.isNumber then
    let p := st.toFloat64 v.value
    if p.2.1 = 0 then (p.1, some p.2.2) else (p.1, none)
  else (st, none)

/-- `Value::as_boolean` (value.rs lines 139-155): guarded by the bool tag,
then `JS_ToBool`; 0 is false, 1 is true, and the -1 failure status yields
`None`. -/
def Value.asBoolean (st : Engine) (v : Value) : Engine × Option Bool :=
  if v.isBoolean then
    let p := st.toBool v.value
    if p.2 = 0 then (p.1, some false)
    else if p.2 = 1 then (p.1, some true)
    else (p.1, none)
  else (st, none)

/-- `Array` (array.rs lines 8-10): a view over a Value known to be an array. -/
structure Array where
  value : Value
deriving DecidableEq

/-- `Array::get` (array.rs lines 50-65): `JS_GetPropertyUint32`, wrapping the
result; an exception-tagged result is the error case. -/
def Array.get (st : Engine) (ar : Array) (idx : Nat) : Engine × Except Value Value :=
  let p := st.getPropU32 ar.value.value idx
  let val : Value := ⟨p.2, ar.value.context⟩
  if val.isException then (p.1, .error val) else (p.1, .ok val)

/-- `Array::set` (array.rs lines 40-49): `JS_SetPropertyUint32`, reporting
success as status zero. -/
def Array.set (st : Engine) (ar : Array) (index : Nat) (val : Value) : Engine × Bool :=
  let p := st.setPropU32 ar.value.value index val.value
  (p.1, p.2 == 0)

/-- `Array::len` (array.rs lines 13-34): intern the length atom, read the
property, convert with `as_integer`; a non-negative integer is the length, a
failed conversion is the error case, and the negative branch of the source is
`unreachable!()` — modelled as the `none` (host panic) outcome. -/
def Array.len (st : Engine) (ar : Array) : Engine × Option (Except Value Nat) :=
  let p := st.newAtom "length"
  let q := p.1.getPropAtom ar.value.value p.2
  let lv : Value := ⟨q.2, ar.value.context⟩
  let r := Value.asInteger q.1 lv
  match r.2 with
  | some i => if 0 ≤ i then (r.1, some (.ok i.toNat)) else (r.1, none)
  | none => (r.1, some (.error lv))

/-- `ArrayIterator` (array.rs lines 68-71): a borrow of the array plus the
next index to probe. -/
structure ArrayIterator where
  array : Array
  pos : Nat
deriving DecidableEq

/-- `Array::iter` (array.rs lines 36-38): a fresh iterator starting at 0. -/
def Array.iter (ar : Array) : ArrayIterator := ⟨ar, 0⟩

/-- `Iterator::next` for `ArrayIterator` (array.rs lines 73-85): probe `get`
at the current index; `Ok` advances and yields the value, `Err` ends the
iteration (the error value is dropped by the discarded binding). -/
def ArrayIterator.next (st : Engine) (it : ArrayIterator) :
    Engine × Option Value × ArrayIterator :=
  match Array.get st it.array it.pos with
  | (st1, .ok v) => (st1, some v, ⟨it.array, it.pos + 1⟩)
  | (st1, .error e) => (Value.drop st1 e, none, it)

/-- `Context::undefined` (value.rs lines 174-181). -/
def Context.undefined (ctx : Context) : Value := ⟨jsUndefined, ctx.ptr⟩

/-- `Context::null` (value.rs lines 183-187). -/
def Context.null (ctx : Context) : Value := ⟨jsNull, ctx.ptr⟩

/-- `Context::exception` (value.rs lines 189-196). -/
def Context.exception (ctx : Context) : Value := ⟨jsException, ctx.ptr⟩

/-- `Context::string` (value.rs lines 198-213): `JS_NewStringLen` on the byte
content (the NUL-terminated copy the source also builds is never used). -/
def Context.string (st : Engine) (ctx : Context) (val : String) : Engine × Value :=
  let p := st.newStringLen val
  (p.1, ⟨p.2, ctx.ptr⟩)

/-- `Context::integer` (value.rs lines 215-222): `JS_NewInt64`, modelled from
the spec as producing an int-tagged value carrying the 64-bit signed payload. -/
def Context.integer (ctx : Context) (val : Int) : Value :=
  ⟨⟨.int, .int val⟩, ctx.ptr⟩

/-- `Context::float` (value.rs lines 224-231): `Helper_JS_NewFloat64`,
modelled from the spec as storing the double payload bit-for-bit. -/
def Context.float (ctx : Context) (val : F64) : Value :=
  ⟨⟨.float64, .float val⟩, ctx.ptr⟩

/-- `Context::boolean` (value.rs lines 233-243): `Helper_JS_NewBool` on the
0/1 encoding of the flag. -/
def Context.boolean (ctx : Context) (val : Bool) : Value :=
  ⟨⟨.bool, .bool (if val then true else false)⟩, ctx.ptr⟩

/-- The population loop of `Context::array` (value.rs lines 258-260): clone
each input and `assert!` that the indexed store succeeds. -/
def arrayPopulate : Engine → Array → List Value → Nat → Engine × Bool
  | st, _, [], _ => (st, true)
  | st, ar, v :: rest, i =>
    let p := Value.clone st v
    let q := Array.set p.1 ar i p.2
    if q.2 then arrayPopulate q.1 ar rest (i + 1) else (q.1, false)

/-- `Context::array` (value.rs lines 245-264): allocate through
`JS_NewArray`; an exception-tagged allocation is the error case, otherwise
assign every input at its index (a failed `assert!` is the `none`, host
panic, outcome). -/
def Context.array (st : Engine) (ctx : Context) (vals : List Value) :
    Engine × Option (Except Value Array) :=
  let p := st.newArray
  let val : Value := ⟨p.2, ctx.ptr⟩
  if val.isException then (p.1, some (.error val))
  else
    let ary : Array := ⟨val⟩
    let q := arrayPopulate p.1 ary vals 0
    if q.2 then (q.1, some (.ok ary)) else (q.1, none)

/-- The evaluation flag word built in `Context::eval` (runtime.rs lines
117-129 and 137): shebang, strict and strip switches, always joined with the
module evaluation type. -/
def evalFlags (skipShebang strict strip : Bool) : Nat :=
  ((((if skipShebang then 4 else 0) : Nat) |||
    (if strict then 8 else 0)) |||
    (if strip then 16 else 0)) ||| 1

/-- The interior-NUL test behind `CString::new`. -/
def hasNulChar (s : String) : Bool :=
  s.data.contains (Char.ofNat 0)

/-- `Context::eval` (runtime.rs lines 105-151): convert the two strings (an
interior NUL makes `expect` panic — the `none` outcome), build the flag word,
run `JS_Eval`, and on an exception-tagged result immediately retrieve the
pending exception object as the error value. -/
def Context.eval (je : String → EvalOutcome) (st : Engine) (ctx : Context)
    (input filename : String) (skipShebang strict strip : Bool) :
    Engine × Option (Except Value Value) :=
  if hasNulChar input || hasNulChar filename then (st, none)
  else
    let p := st.evalSrc je input (evalFlags skipShebang strict strip)
    let val : Value := ⟨p.2, ctx.ptr⟩
    if val.isException then
      let q := p.1.getExc
      (q.1, some (.error ⟨q.2, ctx.ptr⟩))
    else (p.1, some (.ok val))

/-- The `wrap_fn!` expansion (value.rs lines 313-344): rebuild a borrowed
context handle, wrap the raw receiver and arguments as Values by plain
construction (no engine call), run the host closure (which receives the
receiver by value), copy the raw payload out of the returned Value, and let
the Rust scope end: the returned Value temporary and then each element of the
argument vector are dropped, each drop being one `Helper_JS_FreeValue` call;
the borrowed context handle itself performs no teardown. -/
def wrapFn (target : Context → Value → List Value → Engine → Engine × Value)
    (ctxRaw : Nat) (thisRaw : JSValue) (argv : List JSValue) (st : Engine) :
    Engine × JSValue :=
  let ctx : Context := ⟨.borrowed ctxRaw⟩
  let thisV : Value := ⟨thisRaw, ctx.ptr⟩
  let args : List Value := argv.map (fun r => ⟨r, ctx.ptr⟩)
  let p := target ctx thisV args st
  let raw := p.2.value
  let st1 := Value.drop p.1 p.2
  let st2 := args.foldl Value.drop st1
  (st2, raw)

/-! Basic lemmas about the block list and the engine state. -/

@[simp]
theorem Engine.blocks_log (st : Engine) (op : EngineOp) : (st.log op).blocks = st.blocks := rfl

@[simp]
theorem Engine.nextAddr_log (st : Engine) (op : EngineOp) : (st.log op).nextAddr = st.nextAddr := rfl

@[simp]
theorem Engine.pending_log (st : Engine) (op : EngineOp) : (st.log op).pending = st.pending := rfl

@[simp]
theorem Engine.trace_log (st : Engine) (op : EngineOp) : (st.log op).trace = st.trace ++ [op] := rfl

@[simp]
theorem Engine.findBlock_log (st : Engine) (op : EngineOp) (a : Nat) :
    (st.log op).findBlock a = st.findBlock a := rfl

theorem assocFind_eq_none (l : List (Nat × HeapEntry)) (a : Nat)
    (h : a ∉ l.map Prod.fst) : assocFind l a = none := by
  induction l with
  | nil => rfl
  | cons p rest ih =>
    simp only [List.map_cons, List.mem_cons] at h
    push_neg at h
    simp only [assocFind]
    rw [if_neg (fun hh => h.1 hh.symm)]
    exact ih h.2

theorem assocFind_append_left (l1 l2 : List (Nat × HeapEntry)) (a : Nat) (e : HeapEntry)
    (h : assocFind l1 a = some e) : assocFind (l1 ++ l2) a = some e := by
  induction l1 with
  | nil => simp [assocFind] at h
  | cons p rest ih =>
    simp only [assocFind, List.cons_append] at h ⊢
    by_cases hp : p.1 = a
    · simpa [hp] using h
    · rw [if_neg hp] at h ⊢
      exact ih h

theorem assocFind_append_right (l1 l2 : List (Nat × HeapEntry)) (a : Nat)
    (h : assocFind l1 a = none) : assocFind (l1 ++ l2) a = assocFind l2 a := by
  induction l1 with
  | nil => simp
  | cons p rest ih =>
    simp only [assocFind, List.cons_append] at h ⊢
    by_cases hp : p.1 = a
    · simp [hp] at h
    · rw [if_neg hp] at h ⊢
      exact ih h

theorem assocFind_assocUpdate_ne (l : List (Nat × HeapEntry)) (a : Nat)
    (f : HeapEntry → Option HeapEntry) (b : Nat) (h : b ≠ a) :
    assocFind (assocUpdate l a f) b = assocFind l b := by
  induction l with
  | nil => rfl
  | cons p rest ih =>
    simp only [assocUpdate]
    by_cases hp : p.1 = a
    · rw [if_pos hp]
      have hne : ¬ p.1 = b := fun hh => h ((hp ▸ hh : a = b)).symm
      cases hfe : f p.2 with
      | some e => simp only [assocFind, if_neg hne]
      | none => simp only [assocFind, if_neg hne]
    · rw [if_neg hp]
      simp only [assocFind]
      by_cases hb : p.1 = b
      · simp [hb]
      · rw [if_neg hb, if_neg hb]
        exact ih

theorem assocFind_assocUpdate_self (l : List (Nat × HeapEntry)) (a : Nat)
    (f : HeapEntry → Option HeapEntry) (hnd : (l.map Prod.fst).Nodup) :
    assocFind (assocUpdate l a f) a = (assocFind l a).bind f := by
  induction l with
  | nil => rfl
  | cons p rest ih =>
    simp only [List.map_cons, List.nodup_cons] at hnd
    simp only [assocUpdate]
    by_cases hp : p.1 = a
    · rw [if_pos hp]
      cases hfe : f p.2 with
      | some e => simp [assocFind, hp, hfe]
      | none =>
        have : a ∉ rest.map Prod.fst := hp ▸ hnd.1
        simp [assocFind, hp, hfe, assocFind_eq_none rest a this]
    · rw [if_neg hp]
      simp only [assocFind, if_neg hp]
      exact ih hnd.2

theorem assocUpdate_map_fst (l : List (Nat × HeapEntry)) (a : Nat)
    (f : HeapEntry → Option HeapEntry) (hf : ∀ e, (f e).isSome) :
    (assocUpdate l a f).map Prod.fst = l.map Prod.fst := by
  induction l with
  | nil => rfl
  | cons p rest ih =>
    simp only [assocUpdate]
    by_cases hp : p.1 = a
    · rw [if_pos hp]
      cases hfe : f p.2 with
      | some e => simp
      | none => exact absurd (hf p.2) (by simp [hfe])
    · rw [if_neg hp]
      simpa using ih

/-! Claim C2: equality of Values. -/

/-- A string Value of context 1 referencing heap block 10. -/
def vSameCtxTagA : Value := ⟨⟨.string, .ptr 10⟩, .owned 1⟩

/-- A string Value of the same context referencing the distinct heap block 11. -/
def vSameCtxTagB : Value := ⟨⟨.string, .ptr 11⟩, .owned 1⟩

/-- C2: the claim states that two Values are equal iff they share context,
tag and, for pointer-backed tags, the underlying heap block.  The source
comparison (value.rs line 53) tests the left operand payload against itself,
so two string Values of one context referencing different heap blocks compare
equal, while the claimed identity relation separates them: the claim is false
of the code at this input. -/
theorem c2_eq_ignores_heap_block :
    Value.eq vSameCtxTagA vSameCtxTagB = true
      ∧ vSameCtxTagA.value.u ≠ vSameCtxTagB.value.u
      ∧ vSameCtxTagA.value.tag.refCounted = true
      ∧ specValueEq vSameCtxTagA vSameCtxTagB = false := by decide

/-! Claim C1: reference-count effects of the trampoline. -/

/-- An engine heap holding the call argument (block 3) and the receiver
(block 7), each with the one counted reference the engine holds for the call. -/
def c1Engine : Engine :=
  { blocks := [(3, ⟨1, .str "arg"⟩), (7, ⟨1, .str "self"⟩)],
    nextAddr := 8, pending := none, trace := [] }

/-- A host closure that returns its receiver unchanged and performs no engine
call of its own. -/
def c1Target : Context → Value → List Value → Engine → Engine × Value :=
  fun _ thisV _ st => (st, thisV)

/-- C1: at a trampoline call whose receiver is the string at block 7 and
whose only argument is the string at block 3, with a host closure returning
its receiver untouched, the generated code hands the raw payload of block 7
back while the end-of-scope drops call the engine free entry point on both
the returned Value and the argument wrapper: both blocks are released even
though the engine still owns their references and block 7 is also handed
back.  The construction of the wrappers emitted no duplication (the trace
holds exactly the two free calls), so the first half of the claim holds and
the second half is refuted by this run. -/
theorem c1_trampoline_runs_drops :
    (wrapFn c1Target 1 ⟨.string, .ptr 7⟩ [⟨.string, .ptr 3⟩] c1Engine).2 = ⟨.string, .ptr 7⟩
      ∧ (wrapFn c1Target 1 ⟨.string, .ptr 7⟩ [⟨.string, .ptr 3⟩] c1Engine).1.findBlock 7 = none
      ∧ (wrapFn c1Target 1 ⟨.string, .ptr 7⟩ [⟨.string, .ptr 3⟩] c1Engine).1.findBlock 3 = none
      ∧ (wrapFn c1Target 1 ⟨.string, .ptr 7⟩ [⟨.string, .ptr 3⟩] c1Engine).1.trace =
          [.freeValueCall ⟨.string, .ptr 7⟩, .freeValueCall ⟨.string, .ptr 3⟩] := by
  decide

/-! Claim C3: clone and drop versus the native reference count. -/

/-- C3: for a pointer-backed Value whose live block carries count `c`, clone
performs exactly one engine duplication — the count becomes `c + 1`, the data
and every other block are untouched, and the emitted engine call is exactly
the duplication — and drop performs exactly one decrement through the engine
free entry point — count `c - 1`, or removal of the block by the engine
itself at zero, again leaving every other block untouched and emitting
exactly the free call, never a host deallocation.  Cloning and then dropping
the original leaves the block live at the original count with the clone still
referencing it. -/
theorem c3_clone_drop_refcount (st : Engine) (v : Value) (a : Nat) (c : Nat) (b : HeapBlock)
    (hnd : (st.blocks.map Prod.fst).Nodup)
    (ht : v.value.tag.refCounted = true) (hu : v.value.u = .ptr a)
    (hb : st.findBlock a = some ⟨c, b⟩) (hc : 1 ≤ c) :
    ((Value.clone st v).1.findBlock a = some ⟨c + 1, b⟩)
      ∧ ((Value.clone st v).1.trace = st.trace ++ [.dupValueCall v.value])
      ∧ ((Value.clone st v).2 = ⟨v.value, v.context⟩)
      ∧ (∀ a2, a2 ≠ a → (Value.clone st v).1.findBlock a2 = st.findBlock a2)
      ∧ (1 < c → (Value.drop st v).findBlock a = some ⟨c - 1, b⟩)
      ∧ (c = 1 → (Value.drop st v).findBlock a = none)
      ∧ ((Value.drop st v).trace = st.trace ++ [.freeValueCall v.value])
      ∧ (∀ a2, a2 ≠ a → (Value.drop st v).findBlock a2 = st.findBlock a2)
      ∧ ((Value.drop (Value.clone st v).1 v).findBlock a = some ⟨c, b⟩) := by
  have hcb : (Value.clone st v).1.blocks
      = assocUpdate st.blocks a (fun e => some ⟨e.refc + 1, e.data⟩) := by
    simp [Value.clone, Engine.dupValue, Engine.dupRef, ht, hu]
  have hct : (Value.clone st v).1.trace = st.trace ++ [.dupValueCall v.value] := by
    simp [Value.clone, Engine.dupValue, Engine.dupRef, ht, hu]
  have hdb : (Value.drop st v).blocks
      = assocUpdate st.blocks a
          (fun e => if e.refc ≤ 1 then none else some ⟨e.refc - 1, e.data⟩) := by
    simp [Value.drop, Engine.freeValue, Engine.decRef, ht, hu]
  have hdt : (Value.drop st v).trace = st.trace ++ [.freeValueCall v.value] := by
    simp [Value.drop, Engine.freeValue, Engine.decRef, ht, hu]
  have hfind : ∀ a2, (Value.clone st v).1.findBlock a2
      = assocFind (assocUpdate st.blocks a (fun e => some ⟨e.refc + 1, e.data⟩)) a2 := by
    intro a2; rw [Engine.findBlock, hcb]
  have hfindd : ∀ a2, (Value.drop st v).findBlock a2
      = assocFind (assocUpdate st.blocks a
          (fun e => if e.refc ≤ 1 then none else some ⟨e.refc - 1, e.data⟩)) a2 := by
    intro a2; rw [Engine.findBlock, hdb]
  have hcl : (Value.clone st v).1.findBlock a = some ⟨c + 1, b⟩ := by
    rw [hfind, assocFind_assocUpdate_self st.blocks a _ hnd]
    rw [show assocFind st.blocks a = some ⟨c, b⟩ from hb]
    rfl
  refine ⟨hcl, hct, rfl, ?_, ?_, ?_, hdt, ?_, ?_⟩
  · intro a2 h2
    rw [hfind, assocFind_assocUpdate_ne st.blocks a _ a2 h2]
    rfl
  · intro h1
    rw [hfindd, assocFind_assocUpdate_self st.blocks a _ hnd]
    rw [show assocFind st.blocks a = some ⟨c, b⟩ from hb]
    simp [Nat.not_le_of_lt h1]
  · intro h1
    rw [hfindd, assocFind_assocUpdate_self st.blocks a _ hnd]
    rw [show assocFind st.blocks a = some ⟨c, b⟩ from hb]
    simp [h1]
  · intro a2 h2
    rw [hfindd, assocFind_assocUpdate_ne st.blocks a _ a2 h2]
    rfl
  · have hnd2 : ((Value.clone st v).1.blocks.map Prod.fst).Nodup := by
      rw [hcb, assocUpdate_map_fst st.blocks a
        (fun e => some ⟨e.refc + 1, e.data⟩) (fun e => rfl)]
      exact hnd
    have hdb2 : (Value.drop (Value.clone st v).1 v).blocks
        = assocUpdate (Value.clone st v).1.blocks a
            (fun e => if e.refc ≤ 1 then none else some ⟨e.refc - 1, e.data⟩) := by
      simp [Value.drop, Engine.freeValue, Engine.decRef, ht, hu]
    rw [Engine.findBlock, hdb2, assocFind_assocUpdate_self _ a _ hnd2]
    rw [show assocFind (Value.clone st v).1.blocks a = some ⟨c + 1, b⟩ from hcl]
    have : ¬ c + 1 ≤ 1 := by omega
    simp [this]

/-- A one-block engine heap for exercising `c3_clone_drop_refcount`. -/
def c3St : Engine :=
  { blocks := [(0, ⟨2, .str "x"⟩)], nextAddr := 1, pending := none, trace := [] }

/-- A string Value referencing the block of `c3St`. -/
def c3Val : Value := ⟨⟨.string, .ptr 0⟩, .owned 1⟩

/-- Witness: the hypotheses of `c3_clone_drop_refcount` hold at a concrete
string Value with count 2, and the count goes to 3 after clone and back to 2
after dropping the original. -/
theorem c3_clone_drop_refcount_witness :
    ((c3St.blocks.map Prod.fst).Nodup ∧ c3Val.value.tag.refCounted = true
        ∧ c3Val.value.u = .ptr 0 ∧ c3St.findBlock 0 = some ⟨2, .str "x"⟩ ∧ 1 ≤ 2)
      ∧ (Value.clone c3St c3Val).1.findBlock 0 = some ⟨3, .str "x"⟩
      ∧ (Value.drop (Value.clone c3St c3Val).1 c3Val).findBlock 0 = some ⟨2, .str "x"⟩ :=
  ⟨⟨by decide, by decide, by decide, by decide, by decide⟩,
   (c3_clone_drop_refcount c3St c3Val 0 2 (.str "x")
      (by decide) (by decide) (by decide) (by decide) (by decide)).1,
   (c3_clone_drop_refcount c3St c3Val 0 2 (.str "x")
      (by decide) (by decide) (by decide) (by decide) (by decide)).2.2.2.2.2.2.2.2⟩

/-! Claim C5: evaluating invalid source. -/

/-- Modelled from the spec: an engine whose evaluation of any source reports
failure, depositing the error object held at block 5 (a SyntaxError-like
object) in the pending slot. -/
def c5Behavior : String → EvalOutcome := fun _ => .failure ⟨.object, .ptr 5⟩

/-- The engine heap holding that error object. -/
def c5Engine : Engine :=
  { blocks := [(5, ⟨1, .obj []⟩)], nextAddr := 6, pending := none, trace := [] }

/-- An owning context handle. -/
def c5Ctx : Context := ⟨.owned 1⟩

/-- C5 counterexample: evaluating an invalid source returns `Err` as claimed,
but the Value carried inside is the pending exception object — an
object-tagged error value — for which `is_exception` is false, refuting the
second half of the claim at this input. -/
theorem c5_err_value_not_exception_tagged :
    (Context.eval c5Behavior c5Engine c5Ctx "(" "<t>" false false false).2
        = some (.error ⟨⟨.object, .ptr 5⟩, .owned 1⟩)
      ∧ Value.isException ⟨⟨.object, .ptr 5⟩, .owned 1⟩ = false := by decide

/-- C5 (amended): for every syntactically invalid source free of interior
NUL bytes, `Context::eval` returns `Err`; the Value inside is the pending
exception object retrieved from the context — the thrown error object, not
the exception sentinel — so `is_exception` does not hold of it. -/
theorem c5_invalid_source_err (je : String → EvalOutcome) (st : Engine) (ctx : Context)
    (input filename : String) (skipShebang strict strip : Bool) (e : JSValue)
    (hn : hasNulChar input = false) (hf : hasNulChar filename = false)
    (hje : je input = .failure e) (he : e.tag = .object) :
    (Context.eval je st ctx input filename skipShebang strict strip).2
        = some (.error ⟨e, ctx.ptr⟩)
      ∧ Value.isException ⟨e, ctx.ptr⟩ = false := by
  constructor
  · simp [Context.eval, hn, hf, Engine.evalSrc, hje, Value.isException, jsException,
      Engine.getExc]
  · simp [Value.isException, he]

/-- Modelled from the spec: a second failing engine evaluation, used by the
witness below, depositing the object at block 9. -/
def c5Behavior2 : String → EvalOutcome := fun _ => .failure ⟨.object, .ptr 9⟩

/-- Witness: the hypotheses of `c5_invalid_source_err` hold at a concrete
failing evaluation and the conclusion follows by the theorem. -/
theorem c5_invalid_source_err_witness :
    (hasNulChar ")" = false ∧ hasNulChar "<w>" = false
        ∧ c5Behavior2 ")" = .failure ⟨.object, .ptr 9⟩
        ∧ (JSTag.object : JSTag) = .object)
      ∧ ((Context.eval c5Behavior2 c5Engine ⟨.owned 2⟩ ")" "<w>" false false false).2
          = some (.error ⟨⟨.object, .ptr 9⟩, .owned 2⟩)
        ∧ Value.isException ⟨⟨.object, .ptr 9⟩, .owned 2⟩ = false) :=
  ⟨⟨by decide, by decide, rfl, rfl⟩,
   c5_invalid_source_err c5Behavior2 c5Engine ⟨.owned 2⟩ ")" "<w>" false false false
     ⟨.object, .ptr 9⟩ (by decide) (by decide) rfl rfl⟩

/-! Claim C6: the success and exception paths of `Context::eval`. -/

/-- C6: when the engine evaluation does not report the exception sentinel,
`eval` returns `Ok` with the result value and the only engine call made is
the evaluation itself; when it does report the sentinel, `eval` retrieves the
pending exception object immediately — the trace shows the retrieval directly
after the evaluation, with no engine call in between — clears the slot, and
returns that object as the error value. -/
theorem c6_eval_sentinel_dispatch (je : String → EvalOutcome) (st : Engine) (ctx : Context)
    (input filename : String) (b1 b2 b3 : Bool)
    (hn : hasNulChar input = false) (hf : hasNulChar filename = false) :
    (∀ v, je input = .success v → v.tag ≠ .exception →
        Context.eval je st ctx input filename b1 b2 b3
          = ({ st with trace := st.trace ++ [.evalCall input (evalFlags b1 b2 b3)] },
             some (.ok ⟨v, ctx.ptr⟩)))
      ∧ (∀ e, je input = .failure e →
        Context.eval je st ctx input filename b1 b2 b3
          = ({ st with pending := none,
                       trace := (st.trace ++
                         [.evalCall input (evalFlags b1 b2 b3), .getExceptionCall]) },
             some (.error ⟨e, ctx.ptr⟩))) := by
  constructor
  · intro v hje hv
    have hb : (v.tag == JSTag.exception) = false := beq_eq_false_iff_ne.mpr hv
    simp [Context.eval, hn, hf, Engine.evalSrc, hje, Value.isException, hb, Engine.log]
  · intro e hje
    simp [Context.eval, hn, hf, Engine.evalSrc, hje, Value.isException, jsException,
      Engine.getExc, Engine.log]

/-- Modelled from the spec: an engine evaluation that succeeds on the source
text `1` with the integer 1 and fails on everything else with the error
object at block 0. -/
def c6Behavior : String → EvalOutcome := fun s =>
  if s = "1" then .success ⟨.int, .int 1⟩ else .failure ⟨.object, .ptr 0⟩

/-- The empty engine heap. -/
def engine0 : Engine := { blocks := [], nextAddr := 0, pending := none, trace := [] }

/-- Witness: the hypotheses of `c6_eval_sentinel_dispatch` hold at a concrete
source and the dispatch conclusion follows by the theorem. -/
theorem c6_eval_sentinel_dispatch_witness :
    (hasNulChar "1" = false ∧ hasNulChar "<w>" = false)
      ∧ ((∀ v, c6Behavior "1" = .success v → v.tag ≠ .exception →
          Context.eval c6Behavior engine0 ⟨.owned 3⟩ "1" "<w>" false false false
            = ({ engine0 with trace := engine0.trace ++ [.evalCall "1" (evalFlags false false false)] },
               some (.ok ⟨v, ContextPtr.owned 3⟩)))
        ∧ (∀ e, c6Behavior "1" = .failure e →
          Context.eval c6Behavior engine0 ⟨.owned 3⟩ "1" "<w>" false false false
            = ({ engine0 with pending := none,
                              trace := (engine0.trace ++
                                [.evalCall "1" (evalFlags false false false), .getExceptionCall]) },
               some (.error ⟨e, ContextPtr.owned 3⟩)))) :=
  ⟨⟨by decide, by decide⟩,
   c6_eval_sentinel_dispatch c6Behavior engine0 ⟨.owned 3⟩ "1" "<w>" false false false
     (by decide) (by decide)⟩

/-! Claims C4 and C7: the iterator and indexed access. -/

/-- Run the iterator `n` times, collecting the values emitted before the
first `None`. -/
def iterRun : Engine → ArrayIterator → Nat → Engine × List Value
  | st, _, 0 => (st, [])
  | st, it, n + 1 =>
    match ArrayIterator.next st it with
    | (st1, some v, it1) =>
      let r := iterRun st1 it1 n
      (r.1, v :: r.2)
    | (st1, none, _) => (st1, [])

/-- The sequence the claim describes: probe `get` at `i`, `i + 1`, ..., keep
the `Ok` payloads in order, and stop at the first index whose `get` reports
an exception (dropping that error value exactly as the iterator source
does). -/
def getOkSeq : Engine → Array → Nat → Nat → Engine × List Value
  | st, _, _, 0 => (st, [])
  | st, ar, i, n + 1 =>
    match Array.get st ar i with
    | (st1, .ok v) =>
      let r := getOkSeq st1 ar (i + 1) n
      (r.1, v :: r.2)
    | (st1, .error e) => (Value.drop st1 e, [])

/-- The finiteness the claim asserts of every array: within some number of
steps the iterator stops (fewer values than steps are emitted). -/
def iterConcludes (st : Engine) (ar : Array) : Prop :=
  ∃ n, ((iterRun st (Array.iter ar) n).2).length < n

/-- C4 (amended): `Array::iter` yields exactly the `Ok` results of
`get(0)`, `get(1)`, ... in order, stopping at the first index whose `get`
reports an exception, and each invocation of `iter` restarts at index 0; the
produced sequence need not be finite, since an array whose probes never
report an exception answers every index with `Ok`. -/
theorem c4_iter_yields_get_results (st : Engine) (ar : Array) (n : Nat) :
    iterRun st (Array.iter ar) n = getOkSeq st ar 0 n
      ∧ Array.iter ar = ⟨ar, 0⟩ := by
  refine ⟨?_, rfl⟩
  have main : ∀ (n : Nat) (st : Engine) (i : Nat),
      iterRun st ⟨ar, i⟩ n = getOkSeq st ar i n := by
    intro n
    induction n with
    | zero => intro st i; rfl
    | succ n ih =>
      intro st i
      simp only [iterRun, getOkSeq, ArrayIterator.next]
      rcases hg : Array.get st ar i with ⟨st1, v⟩
      cases v with
      | ok v => simp [ih]
      | error e => simp
  exact main n st 0

/-- An engine heap holding one empty array at block 0. -/
def arrEngine0 : Engine :=
  { blocks := [(0, ⟨1, .arr []⟩)], nextAddr := 1, pending := none, trace := [] }

/-- The Array view over that block. -/
def arrView0 : Array := ⟨⟨⟨.array, .ptr 0⟩, .owned 1⟩⟩

/-- On the empty array every probe is answered with `Ok undefined`, so one
iterator step always emits a value and only extends the trace. -/
theorem c4_next_on_empty (st : Engine) (i : Nat) (rc : Nat)
    (h : st.findBlock 0 = some ⟨rc, .arr []⟩) :
    ArrayIterator.next st ⟨arrView0, i⟩
      = (st.log (.getPropU32Call ⟨.array, .ptr 0⟩ i),
         some ⟨jsUndefined, .owned 1⟩, ⟨arrView0, i + 1⟩) := by
  simp [ArrayIterator.next, Array.get, Engine.getPropU32, arrView0, h,
    Value.isException, jsUndefined]

/-- On the empty array, `n` iterator steps emit exactly `n` values. -/
theorem c4_iterRun_length_on_empty :
    ∀ (n : Nat) (st : Engine) (i rc : Nat), st.findBlock 0 = some ⟨rc, .arr []⟩ →
      ((iterRun st ⟨arrView0, i⟩ n).2).length = n := by
  intro n
  induction n with
  | zero => intro st i rc _; rfl
  | succ n ih =>
    intro st i rc h
    rw [iterRun, c4_next_on_empty st i rc h]
    simpa using ih (st.log (.getPropU32Call ⟨.array, .ptr 0⟩ i)) (i + 1) rc (by simpa using h)

/-- C4 counterexample: the claim asserts the produced sequence is finite for
every array, but on the well-formed empty array the iterator emits a value at
every step and never stops. -/
theorem c4_iter_never_ends : ¬ iterConcludes arrEngine0 arrView0 := by
  rintro ⟨n, hn⟩
  simp only [Array.iter] at hn
  rw [c4_iterRun_length_on_empty n arrEngine0 0 1 (by decide)] at hn
  exact Nat.lt_irrefl n hn

/-- C7: on a value actually tagged as an array whose block holds `elems`,
`get` at any index at or beyond the length returns `Ok` with an
undefined-tagged Value bound to the same context, and in general `get`
returns `Err` only when the engine lookup reports an exception-tagged
result. -/
theorem c7_get_out_of_range (st : Engine) (ar : Array) (a rc : Nat)
    (elems : List JSValue) (idx : Nat)
    (ht : ar.value.value.tag = .array) (hu : ar.value.value.u = .ptr a)
    (hb : st.findBlock a = some ⟨rc, .arr elems⟩) (hlen : elems.length ≤ idx) :
    (Array.get st ar idx).2 = .ok ⟨jsUndefined, ar.value.context⟩
      ∧ (∀ (st2 : Engine) (i : Nat) (e : Value),
          (Array.get st2 ar i).2 = .error e → e.isException = true) := by
  constructor
  · have hnone : elems.get? idx = none := List.get?_eq_none.mpr hlen
    have hnone2 : elems[idx]? = none := by simpa using hnone
    simp [Array.get, Engine.getPropU32, hu, hb, hnone2, Value.isException, jsUndefined]
  · intro st2 i e he
    simp only [Array.get] at he
    rw [apply_ite Prod.snd] at he
    split at he
    · next hex =>
      simp only at he
      injection he with h1
      exact h1 ▸ hex
    · next hex => simp at he

/-- Witness: the hypotheses of `c7_get_out_of_range` hold of the empty array
at index 5, and the probe answers `Ok undefined`. -/
theorem c7_get_out_of_range_witness :
    (arrView0.value.value.tag = .array ∧ arrView0.value.value.u = .ptr 0
        ∧ arrEngine0.findBlock 0 = some ⟨1, .arr []⟩
        ∧ (List.length ([] : List JSValue)) ≤ 5)
      ∧ (Array.get arrEngine0 arrView0 5).2 = .ok ⟨jsUndefined, arrView0.value.context⟩ :=
  ⟨⟨rfl, rfl, by decide, by decide⟩,
   (c7_get_out_of_range arrEngine0 arrView0 0 1 [] 5 rfl rfl (by decide) (by decide)).1⟩

/-! Claim C8: primitive construction and conversion round trips. -/

/-- C8: constructing a string, 64-bit integer, double or boolean Value and
immediately converting it back yields the original bit-for-bit; a NaN double
comes back as a value whose NaN test holds, and both infinities round-trip
exactly. -/
theorem c8_primitive_round_trips (st : Engine) (ctx : Context) (s : String) (i : Int)
    (f : F64) (b : Bool)
    (hlt : ∀ p ∈ st.blocks, p.1 < st.nextAddr)
    (hi : -(2 ^ 63) ≤ i ∧ i < 2 ^ 63) :
    (Value.asString (Context.string st ctx s).1 (Context.string st ctx s).2).2 = some s
      ∧ (Value.asInteger st (ctx.integer i)).2 = some i
      ∧ (Value.asFloat st (ctx.float f)).2 = some f
      ∧ (f.isNan = true → ((Value.asFloat st (ctx.float f)).2.map F64.isNan) = some true)
      ∧ (Value.asFloat st (ctx.float f64PosInf)).2 = some f64PosInf
      ∧ (Value.asFloat st (ctx.float f64NegInf)).2 = some f64NegInf
      ∧ (Value.asBoolean st (ctx.boolean b)).2 = some b := by
  have hnotin : st.nextAddr ∉ st.blocks.map Prod.fst := by
    intro hmem
    rcases List.mem_map.mp hmem with ⟨p, hp, hpe⟩
    have := hlt p hp
    omega
  have h1 : assocFind (st.blocks ++ [(st.nextAddr, ⟨1, .str s⟩)]) st.nextAddr
      = some ⟨1, .str s⟩ := by
    rw [assocFind_append_right _ _ _ (assocFind_eq_none _ _ hnotin)]
    simp [assocFind]
  refine ⟨?_, ?_, ?_, ?_, ?_, ?_, ?_⟩
  · simp [Context.string, Engine.newStringLen, Value.asString, Value.isString,
      Engine.toCString, Engine.findBlock, h1]
  · simp [Value.asInteger, Value.isInteger, Context.integer, Engine.toInt64]
  · simp [Value.asFloat, Value.isNumber, Context.float, Engine.toFloat64]
  · intro hnan
    simp [Value.asFloat, Value.isNumber, Context.float, Engine.toFloat64, hnan]
  · simp [Value.asFloat, Value.isNumber, Context.float, Engine.toFloat64]
  · simp [Value.asFloat, Value.isNumber, Context.float, Engine.toFloat64]
  · cases b <;>
      simp [Value.asBoolean, Value.isBoolean, Context.boolean, Engine.toBool]

/-- Witness: the hypotheses of `c8_primitive_round_trips` hold on the empty
engine heap, and two of the round trips are shown at concrete inputs. -/
theorem c8_primitive_round_trips_witness :
    ((∀ p ∈ engine0.blocks, p.1 < engine0.nextAddr)
        ∧ (-(2 ^ 63) ≤ (5 : Int) ∧ (5 : Int) < 2 ^ 63))
      ∧ (Value.asString (Context.string engine0 ⟨.owned 4⟩ "ab").1
          (Context.string engine0 ⟨.owned 4⟩ "ab").2).2 = some "ab"
      ∧ (Value.asInteger engine0 (Context.integer ⟨.owned 4⟩ 5)).2 = some 5 :=
  ⟨⟨by simp [engine0], by decide⟩,
   (c8_primitive_round_trips engine0 ⟨.owned 4⟩ "ab" 5 (.bits 0) true
      (by simp [engine0]) (by decide)).1,
   (c8_primitive_round_trips engine0 ⟨.owned 4⟩ "ab" 5 (.bits 0) true
      (by simp [engine0]) (by decide)).2.1⟩

/-! Claim C9: array construction from integer Values. -/

theorem listSet_length_append (l : List JSValue) (x : JSValue) :
    listSet l l.length x = l ++ [x] := by
  simp [listSet]

/-- Populating a live array block with int-tagged Values, one index past the
current end at a time, appends exactly those payloads and succeeds. -/
theorem arrayPopulate_ints (d : Nat) (ctx : Context) (l : List Int) :
    ∀ (st : Engine) (acc : List JSValue) (rc : Nat),
      (st.blocks.map Prod.fst).Nodup →
      st.findBlock d = some ⟨rc, .arr acc⟩ →
      ∃ st2 : Engine,
        arrayPopulate st ⟨⟨⟨.array, .ptr d⟩, ctx.ptr⟩⟩ (l.map ctx.integer) acc.length
            = (st2, true)
          ∧ st2.findBlock d = some ⟨rc, .arr (acc ++ l.map (fun k => ⟨.int, .int k⟩))⟩
          ∧ (st2.blocks.map Prod.fst).Nodup := by
  induction l with
  | nil =>
    intro st acc rc hnd hb
    exact ⟨st, rfl, by simpa using hb, hnd⟩
  | cons k rest ih =>
    intro st acc rc hnd hb
    have hb2 : assocFind st.blocks d = some ⟨rc, .arr acc⟩ := hb
    have hget : acc.get? acc.length = none := List.get?_eq_none.mpr (Nat.le_refl _)
    have hget2 : acc[acc.length]? = none := by simpa using hget
    have hstep : arrayPopulate st ⟨⟨⟨.array, .ptr d⟩, ctx.ptr⟩⟩
          ((k :: rest).map ctx.integer) acc.length
        = arrayPopulate
            { st with blocks := (assocUpdate st.blocks d
                        (fun e => some ⟨e.refc, .arr (acc ++ [⟨.int, .int k⟩])⟩)),
                      trace := (st.trace ++ [.dupValueCall ⟨.int, .int k⟩,
                        .setPropU32Call ⟨.array, .ptr d⟩ acc.length]) }
            ⟨⟨⟨.array, .ptr d⟩, ctx.ptr⟩⟩ (rest.map ctx.integer) (acc.length + 1) := by
      simp [arrayPopulate, Value.clone, Engine.dupValue, Engine.dupRef, Context.integer,
        JSTag.refCounted, Array.set, Engine.setPropU32, Engine.findBlock, hb2, hget2,
        listSet_length_append, Engine.log]
    have hndN : (((assocUpdate st.blocks d
        (fun e => some ⟨e.refc, .arr (acc ++ [(⟨.int, .int k⟩ : JSValue)])⟩))).map Prod.fst).Nodup := by
      rw [assocUpdate_map_fst st.blocks d
        (fun e => some ⟨e.refc, .arr (acc ++ [(⟨.int, .int k⟩ : JSValue)])⟩) (fun e => rfl)]
      exact hnd
    have hbN : assocFind (assocUpdate st.blocks d
          (fun e => some ⟨e.refc, .arr (acc ++ [(⟨.int, .int k⟩ : JSValue)])⟩)) d
        = some ⟨rc, .arr (acc ++ [(⟨.int, .int k⟩ : JSValue)])⟩ := by
      rw [assocFind_assocUpdate_self st.blocks d _ hnd, hb2]
      rfl
    obtain ⟨st2, hrun, hfind, hnd2⟩ := ih
      { st with blocks := (assocUpdate st.blocks d
                  (fun e => some ⟨e.refc, .arr (acc ++ [(⟨.int, .int k⟩ : JSValue)])⟩)),
                trace := (st.trace ++ [.dupValueCall ⟨.int, .int k⟩,
                  .setPropU32Call ⟨.array, .ptr d⟩ acc.length]) }
      (acc ++ [(⟨.int, .int k⟩ : JSValue)]) rc hndN hbN
    refine ⟨st2, ?_, ?_, hnd2⟩
    · rw [hstep]
      simpa using hrun
    · simpa [List.append_assoc] using hfind

/-- C9: constructing an array from `n` integer Values yields the array view
over a fresh block, `len` reports exactly `n`, and `get(i)` for every
`i < n` returns the i-th integer in order. -/
theorem c9_array_of_integers (st : Engine) (ctx : Context) (ints : List Int)
    (hnd : (st.blocks.map Prod.fst).Nodup) (hlt : ∀ p ∈ st.blocks, p.1 < st.nextAddr) :
    ∃ st2 : Engine,
      Context.array st ctx (ints.map ctx.integer)
          = (st2, some (.ok ⟨⟨⟨.array, .ptr st.nextAddr⟩, ctx.ptr⟩⟩))
        ∧ (Array.len st2 ⟨⟨⟨.array, .ptr st.nextAddr⟩, ctx.ptr⟩⟩).2 = some (.ok ints.length)
        ∧ (∀ (i : Nat) (h : i < ints.length),
            (Array.get st2 ⟨⟨⟨.array, .ptr st.nextAddr⟩, ctx.ptr⟩⟩ i).2
              = .ok ⟨⟨.int, .int ints[i]⟩, ctx.ptr⟩) := by
  have hnotin : st.nextAddr ∉ st.blocks.map Prod.fst := by
    intro hmem
    rcases List.mem_map.mp hmem with ⟨p, hp, hpe⟩
    have := hlt p hp
    omega
  have hndA : ((st.blocks ++ [(st.nextAddr, (⟨1, .arr []⟩ : HeapEntry))]).map Prod.fst).Nodup := by
    simp only [List.map_append, List.map_cons, List.map_nil]
    rw [List.nodup_append]
    exact ⟨hnd, List.nodup_singleton _, by simpa [List.disjoint_singleton] using hnotin⟩
  have hbA : assocFind (st.blocks ++ [(st.nextAddr, (⟨1, .arr []⟩ : HeapEntry))]) st.nextAddr
      = some ⟨1, .arr []⟩ := by
    rw [assocFind_append_right _ _ _ (assocFind_eq_none _ _ hnotin)]
    simp [assocFind]
  obtain ⟨st2, hrun, hfind, hnd2⟩ := arrayPopulate_ints st.nextAddr ctx ints
    { st with blocks := (st.blocks ++ [(st.nextAddr, ⟨1, .arr []⟩)]),
              nextAddr := st.nextAddr + 1, trace := (st.trace ++ [.newArrayCall]) }
    [] 1 (by simpa using hndA) (by simpa [Engine.findBlock] using hbA)
  have hfind2 : st2.findBlock st.nextAddr
      = some ⟨1, .arr (ints.map (fun k => ⟨.int, .int k⟩))⟩ := by
    simpa using hfind
  refine ⟨st2, ?_, ?_, ?_⟩
  · have hun : Context.array st ctx (ints.map ctx.integer)
        = (let q := arrayPopulate
            { st with blocks := (st.blocks ++ [(st.nextAddr, ⟨1, .arr []⟩)]),
                      nextAddr := st.nextAddr + 1, trace := (st.trace ++ [.newArrayCall]) }
            ⟨⟨⟨.array, .ptr st.nextAddr⟩, ctx.ptr⟩⟩ (ints.map ctx.integer) 0;
           if q.2 then (q.1, some (.ok ⟨⟨⟨.array, .ptr st.nextAddr⟩, ctx.ptr⟩⟩))
           else (q.1, none)) := rfl
    rw [hun]
    have hrun0 : arrayPopulate
        { st with blocks := (st.blocks ++ [(st.nextAddr, ⟨1, .arr []⟩)]),
                  nextAddr := st.nextAddr + 1, trace := (st.trace ++ [.newArrayCall]) }
        ⟨⟨⟨.array, .ptr st.nextAddr⟩, ctx.ptr⟩⟩ (ints.map ctx.integer) 0 = (st2, true) := by
      simpa using hrun
    rw [hrun0]
    simp
  · simp [Array.len, Engine.newAtom, Engine.getPropAtom, hfind2, Value.asInteger,
      Value.isInteger, Engine.toInt64, List.length_map]
  · intro i h
    have hx : (ints.map (fun k => (⟨.int, .int k⟩ : JSValue)))[i]?
        = some ⟨.int, .int ints[i]⟩ := by
      simp [List.getElem?_map, List.getElem?_eq_getElem (by simpa using h)]
    simp [Array.get, Engine.getPropU32, hfind2, hx, Engine.dupRef, JSTag.refCounted,
      Value.isException]

/-- Witness: `c9_array_of_integers` at the two-element integer list `[4, 7]`
on the empty engine heap. -/
theorem c9_array_of_integers_witness :
    ((engine0.blocks.map Prod.fst).Nodup ∧ ∀ p ∈ engine0.blocks, p.1 < engine0.nextAddr)
      ∧ ∃ st2 : Engine,
        Context.array engine0 ⟨.owned 6⟩ ([4, 7].map (Context.integer ⟨.owned 6⟩))
            = (st2, some (.ok ⟨⟨⟨.array, .ptr engine0.nextAddr⟩, ContextPtr.owned 6⟩⟩))
          ∧ (Array.len st2 ⟨⟨⟨.array, .ptr engine0.nextAddr⟩, ContextPtr.owned 6⟩⟩).2
              = some (.ok ([4, 7] : List Int).length)
          ∧ (∀ (i : Nat) (h : i < ([4, 7] : List Int).length),
              (Array.get st2 ⟨⟨⟨.array, .ptr engine0.nextAddr⟩, ContextPtr.owned 6⟩⟩ i).2
                = .ok ⟨⟨.int, .int ([4, 7] : List Int)[i]⟩, ContextPtr.owned 6⟩) :=
  ⟨⟨by decide, by simp [engine0]⟩,
   c9_array_of_integers engine0 ⟨.owned 6⟩ [4, 7] (by decide) (by simp [engine0])⟩

/-! Claim C10: `as_float` accepts int-tagged Values. -/

/-- C10: a Value built by `Context::integer` carries the int tag, for which
`is_number` holds, so `as_float` converts it through the engine coercion and
returns it rather than `None`. -/
theorem c10_as_float_accepts_integer (st : Engine) (ctx : Context) (i : Int) :
    (ctx.integer i).isNumber = true
      ∧ (Value.asFloat st (ctx.integer i)).2 = some (F64.ofInt i)
      ∧ (Value.asFloat st (ctx.integer i)).2 ≠ none := by
  refine ⟨rfl, rfl, ?_⟩
  simp [Value.asFloat, Value.isNumber, Context.integer, Engine.toFloat64]

end QuickJS
